import Mathlib

/-!
Verification of the `bandeco` CLI (src/bandeco.py) against its
natural-language specification.

Shallow embedding conventions:
* Python `str` values are modelled as `List Char`; raw byte strings as
  `List Nat` (each element < 256).
* `datetime.date` is modelled by the `Date` structure (year, month, day),
  with the proleptic Gregorian calendar.  `rd d` is the Rata Die day
  number (rd ⟨1,1,1⟩ = 1, which is a Monday, as in Python's `datetime`).
* Python functions that can raise are modelled with `Option`/`Except`;
  a `none`/`.error` result models a raised exception.
* Functions whose Python recursion is not structural are implemented with
  an explicit fuel argument (always called with enough fuel), so that all
  definitions reduce in the kernel.
-/

set_option maxRecDepth 4000

namespace Bandeco

/-! ## Calendar model (embedding of `datetime.date`) -/

/-- A calendar date, modelling Python's `datetime.date`. -/
structure Date where
  year : Nat
  month : Nat
  day : Nat
deriving DecidableEq, Repr

/-- Gregorian leap-year rule (Python `calendar.isleap`). -/
def isLeap (y : Nat) : Bool :=
  (y % 4 == 0 && y % 100 != 0) || y % 400 == 0

/-- `1` on leap years, `0` otherwise. -/
def leapN (y : Nat) : Nat := if isLeap y then 1 else 0

/-- Number of days of month `m` (1-based) in year `y`. -/
def daysInMonth (y m : Nat) : Nat :=
  if m = 1 then 31 else if m = 2 then (if isLeap y then 29 else 28)
  else if m = 3 then 31 else if m = 4 then 30 else if m = 5 then 31
  else if m = 6 then 30 else if m = 7 then 31 else if m = 8 then 31
  else if m = 9 then 30 else if m = 10 then 31 else if m = 11 then 30
  else if m = 12 then 31 else 0

/-- Days in year `y` strictly before month `m`. -/
def daysBeforeMonth (y m : Nat) : Nat :=
  let l := leapN y
  if m = 1 then 0 else if m = 2 then 31 else if m = 3 then 59 + l
  else if m = 4 then 90 + l else if m = 5 then 120 + l
  else if m = 6 then 151 + l else if m = 7 then 181 + l
  else if m = 8 then 212 + l else if m = 9 then 243 + l
  else if m = 10 then 273 + l else if m = 11 then 304 + l
  else if m = 12 then 334 + l else 0

/-- The dates representable by Python's `datetime.date` (year ≥ 1). -/
def Date.valid (d : Date) : Prop :=
  1 ≤ d.year ∧ 1 ≤ d.month ∧ d.month ≤ 12 ∧ 1 ≤ d.day ∧
    d.day ≤ daysInMonth d.year d.month

instance (d : Date) : Decidable d.valid := by
  unfold Date.valid; exact inferInstance

/-- 1-based ordinal of the date within its year (`%j`, `tm_yday`). -/
def dayOfYear (d : Date) : Nat := daysBeforeMonth d.year d.month + d.day

/-- Days in years `1 .. y-1` of the proleptic Gregorian calendar. -/
def daysBeforeYear (y : Nat) : Nat :=
  365 * (y - 1) + (y - 1) / 4 - (y - 1) / 100 + (y - 1) / 400

/-- Rata Die day number: `rd ⟨1,1,1⟩ = 1` (Python `date.toordinal`). -/
def rd (d : Date) : Nat := daysBeforeYear d.year + dayOfYear d

/-- Weekday with Monday = 0 .. Sunday = 6 (Python `date.weekday()`);
day 1 of the calendar (0001-01-01) is a Monday. -/
def mondayIdx (d : Date) : Nat := (rd d - 1) % 7

/-- Python's `strftime("%W")`: week number with Monday as first weekday;
all days before the year's first Monday are week 0. -/
def weekW (d : Date) : Nat := (dayOfYear d + 6 - mondayIdx d) / 7

/-- Index of the Monday-to-Sunday calendar week containing `d`:
two dates share it iff they lie in the same Monday-to-Sunday week. -/
def mondayWeek (d : Date) : Nat := (rd d - 1) / 7

/-- Index of the Sunday-to-Saturday calendar week containing `d`:
two dates share it iff they lie in the same Sunday-to-Saturday week. -/
def sundayWeek (d : Date) : Nat := rd d / 7

/-- December 31 of year `y`. -/
def dec31 (y : Nat) : Date := ⟨y, 12, 31⟩

/-! ## Decimal formatting (embedding of Python `str`/`%`-formatting) -/

/-- Decimal digit character. -/
def digitChar (n : Nat) : Char := Char.ofNat (48 + n)

/-- Decimal digits of `n`, most significant first (fueled helper). -/
def natDigitsAux : Nat → Nat → List Char
  | 0, _ => []
  | fuel + 1, n =>
    if n < 10 then [digitChar n]
    else natDigitsAux fuel (n / 10) ++ [digitChar (n % 10)]

/-- Decimal representation of `n` as characters (Python `str(n)`). -/
def natDigits (n : Nat) : List Char := natDigitsAux (n + 1) n

/-- Zero-padding to width 2 (Python `%W` padding and `{:02}`). -/
def pad2 (n : Nat) : List Char :=
  if n < 10 then '0' :: natDigits n else natDigits n

/-- `strftime("%Yw%W")` applied to a (year, week-number) pair. -/
def fmtYw (y w : Nat) : List Char := natDigits y ++ 'w' :: pad2 w

/-! ## `get_week`, `cache_key`, `is_current_week` (src/bandeco.py:149-162) -/

/-- Embedding of `get_week`: format the date as `<year>w<week>` with `%W`;
if the result ends in `"w00"`, recompute from December 31 of the
previous year.  (For valid dates the recomputation branch implies
`year ≥ 2`, so `year - 1` never hits the `datetime` year-0 error.) -/
def get_week (d : Date) : List Char :=
  let week := fmtYw d.year (weekW d)
  if List.isSuffixOf ('w' :: '0' :: '0' :: []) week then
    fmtYw (d.year - 1) (weekW (dec31 (d.year - 1)))
  else week

/-- Embedding of `cache_key`: `f"{get_week(date)}r{restaurant:02}"`. -/
def cache_key (d : Date) (restaurant : Nat) : List Char :=
  get_week d ++ 'r' :: pad2 restaurant

/-- Embedding of `is_current_week`; `today` (Python
`datetime.date.today()`) is passed explicitly. -/
def is_current_week (today d : Date) : Bool :=
  get_week d == get_week today

example : get_week ⟨2023, 1, 1⟩ = "2022w52".data := by decide
example : get_week ⟨2023, 1, 9⟩ = "2023w02".data := by decide
example : mondayIdx ⟨2023, 1, 1⟩ = 6 := by decide
example : cache_key ⟨2023, 1, 9⟩ 13 = "2023w02r13".data := by decide

/-! ## Arithmetic facts about the calendar model -/

theorem isLeap_iff (y : Nat) :
    isLeap y = true ↔ ((y % 4 = 0 ∧ ¬ y % 100 = 0) ∨ y % 400 = 0) := by
  simp [isLeap, Bool.or_eq_true, Bool.and_eq_true]

set_option maxHeartbeats 1000000 in
theorem month_bound (y m : Nat) (hm1 : 1 ≤ m) (hm2 : m ≤ 12) :
    daysBeforeMonth y m + daysInMonth y m ≤ 365 + leapN y := by
  interval_cases m <;>
    simp [daysBeforeMonth, daysInMonth, leapN] <;> split_ifs <;> omega

theorem dayOfYear_bounds {d : Date} (h : d.valid) :
    1 ≤ dayOfYear d ∧ dayOfYear d ≤ 365 + leapN d.year := by
  obtain ⟨_, hm1, hm2, hd1, hd2⟩ := h
  have hub := month_bound d.year d.month hm1 hm2
  unfold dayOfYear
  omega

theorem dayOfYear_dec31 (y : Nat) : dayOfYear (dec31 y) = 365 + leapN y := by
  show daysBeforeMonth y 12 + 31 = 365 + leapN y
  unfold daysBeforeMonth
  simp
  omega

theorem dec31_valid {y : Nat} (h : 1 ≤ y) : (dec31 y).valid := by
  refine ⟨h, ?_, ?_, ?_, ?_⟩ <;> simp [dec31, daysInMonth]

theorem daysBeforeYear_succ {y : Nat} (h : 1 ≤ y) :
    daysBeforeYear (y + 1) = daysBeforeYear y + 365 + leapN y := by
  obtain ⟨n, rfl⟩ : ∃ n, y = n + 1 := ⟨y - 1, by omega⟩
  have hiff2 : isLeap (n + 1) = true ↔
      ((4 ∣ n + 1 ∧ ¬ 100 ∣ n + 1) ∨ 400 ∣ n + 1) :=
    (isLeap_iff (n + 1)).trans (by omega)
  unfold daysBeforeYear leapN
  simp only [Nat.add_sub_cancel, Nat.succ_div, hiff2]
  split_ifs <;> omega

theorem daysBeforeYear_mono {y y' : Nat} (h : y ≤ y') :
    daysBeforeYear y ≤ daysBeforeYear y' := by
  unfold daysBeforeYear
  have h4 : (y - 1) / 4 ≤ (y' - 1) / 4 := Nat.div_le_div_right (by omega)
  have h100 : (y - 1) / 100 ≤ (y' - 1) / 100 := Nat.div_le_div_right (by omega)
  have h400 : (y - 1) / 400 ≤ (y' - 1) / 400 := Nat.div_le_div_right (by omega)
  omega

theorem leapN_le (y : Nat) : leapN y ≤ 1 := by
  unfold leapN; split_ifs <;> omega

theorem rd_dec31 {y : Nat} (h : 1 ≤ y) :
    rd (dec31 y) = daysBeforeYear (y + 1) := by
  have h1 := daysBeforeYear_succ h
  have h2 := dayOfYear_dec31 y
  show daysBeforeYear y + dayOfYear (dec31 y) = daysBeforeYear (y + 1)
  omega

/-- The `%W` week number, the Monday-week index and the year offset
satisfy `weekW d + (daysBeforeYear year + 6)/7 = mondayWeek d + 1`. -/
theorem weekW_add (d : Date) (h : d.valid) :
    weekW d + (daysBeforeYear d.year + 6) / 7 = mondayWeek d + 1 := by
  have hdoy := (dayOfYear_bounds h).1
  have e1 : weekW d = (dayOfYear d + 6 - (rd d - 1) % 7) / 7 := rfl
  have e2 : mondayWeek d = (rd d - 1) / 7 := rfl
  have e3 : rd d = daysBeforeYear d.year + dayOfYear d := rfl
  omega

/-- For dates of year 1 the `%W` week number is never 0
(0001-01-01 is a Monday). -/
theorem weekW_year_one {d : Date} (h : d.valid) (h1 : d.year = 1) :
    1 ≤ weekW d := by
  have hdoy := (dayOfYear_bounds h).1
  have e1 : weekW d = (dayOfYear d + 6 - (rd d - 1) % 7) / 7 := rfl
  have e3 : rd d = daysBeforeYear d.year + dayOfYear d := rfl
  have e4 : daysBeforeYear 1 = 0 := by decide
  rw [h1] at e3
  omega

/-- A valid date with `%W` week 0 is in year ≥ 2 and lies in the same
Monday-to-Sunday week as December 31 of the previous year. -/
theorem weekW_zero_same_week {d : Date} (h : d.valid) (h0 : weekW d = 0) :
    2 ≤ d.year ∧ mondayWeek d = mondayWeek (dec31 (d.year - 1)) := by
  have hy2 : 2 ≤ d.year := by
    rcases Nat.lt_or_ge d.year 2 with hy | hy
    · have hy1 : d.year = 1 := by
        have := h.1
        omega
      have := weekW_year_one h hy1
      omega
    · exact hy
  refine ⟨hy2, ?_⟩
  have hdoy := (dayOfYear_bounds h).1
  have hrd : rd (dec31 (d.year - 1)) = daysBeforeYear d.year := by
    have h' := rd_dec31 (y := d.year - 1) (by omega)
    have he : d.year - 1 + 1 = d.year := by omega
    rwa [he] at h'
  have hge : 365 ≤ daysBeforeYear d.year := by
    have hm := @daysBeforeYear_mono 2 d.year hy2
    have h2 : daysBeforeYear 2 = 365 := by decide
    omega
  have e0 : weekW d = (dayOfYear d + 6 - (rd d - 1) % 7) / 7 := rfl
  have e1 : mondayWeek d = (rd d - 1) / 7 := rfl
  have e2 : mondayWeek (dec31 (d.year - 1)) =
      (rd (dec31 (d.year - 1)) - 1) / 7 := rfl
  have e3 : rd d = daysBeforeYear d.year + dayOfYear d := rfl
  omega

/-- Within one year, equal `%W` week numbers mean equal Monday-weeks. -/
theorem weekW_same_year {d1 d2 : Date} (h1 : d1.valid) (h2 : d2.valid)
    (hy : d1.year = d2.year) :
    (weekW d1 = weekW d2 ↔ mondayWeek d1 = mondayWeek d2) := by
  have e1 := weekW_add d1 h1
  have e2 := weekW_add d2 h2
  rw [hy] at e1
  omega

/-- `%W` of December 31 is at least 1 (in fact at least 52). -/
theorem weekW_dec31_pos (y : Nat) : 1 ≤ weekW (dec31 y) := by
  have hd := dayOfYear_dec31 y
  have e0 : weekW (dec31 y) =
      (dayOfYear (dec31 y) + 6 - (rd (dec31 y) - 1) % 7) / 7 := rfl
  omega

/-- If two valid dates of different years share a Monday-week, the later
one has `%W` week 0, its year is the earlier's + 1, and the shared week
is that of December 31 of the earlier year. -/
theorem cross_year_same_week {d1 d2 : Date} (h1 : d1.valid) (h2 : d2.valid)
    (hy : d1.year < d2.year) (hw : mondayWeek d1 = mondayWeek d2) :
    weekW d2 = 0 ∧ d2.year = d1.year + 1 ∧
      mondayWeek d2 = mondayWeek (dec31 d1.year) := by
  have hy1 : 1 ≤ d1.year := h1.1
  have hrd31 : rd (dec31 d1.year) = daysBeforeYear (d1.year + 1) :=
    rd_dec31 hy1
  have hb1 := dayOfYear_bounds h1
  have hb2 := dayOfYear_bounds h2
  have hsu := daysBeforeYear_succ hy1
  have hsu2 : daysBeforeYear (d1.year + 2) =
      daysBeforeYear (d1.year + 1) + 365 + leapN (d1.year + 1) := by
    have h' := daysBeforeYear_succ (y := d1.year + 1) (by omega)
    have he : d1.year + 1 + 1 = d1.year + 2 := by omega
    rwa [he] at h'
  have hl1 := leapN_le d1.year
  have hl2 := leapN_le (d1.year + 1)
  have e1 : rd d1 = daysBeforeYear d1.year + dayOfYear d1 := rfl
  have e2 : rd d2 = daysBeforeYear d2.year + dayOfYear d2 := rfl
  have m1 : mondayWeek d1 = (rd d1 - 1) / 7 := rfl
  have m2 : mondayWeek d2 = (rd d2 - 1) / 7 := rfl
  have m3 : mondayWeek (dec31 d1.year) = (rd (dec31 d1.year) - 1) / 7 := rfl
  have w2 : weekW d2 = (dayOfYear d2 + 6 - (rd d2 - 1) % 7) / 7 := rfl
  have hmono : daysBeforeYear (d1.year + 1) ≤ daysBeforeYear d2.year :=
    daysBeforeYear_mono (by omega)
  have hrdle : rd d1 ≤ rd (dec31 d1.year) := by omega
  have hweek : rd d2 ≤ rd d1 + 6 ∧ rd d1 ≤ rd d2 + 6 := by omega
  have hy21 : d2.year = d1.year + 1 := by
    rcases Nat.eq_or_lt_of_le (Nat.succ_le_of_lt hy) with he | hlt
    · exact he.symm
    · exfalso
      have hge : daysBeforeYear (d1.year + 2) ≤ daysBeforeYear d2.year :=
        daysBeforeYear_mono (by omega)
      have hlow : rd (dec31 d1.year) + 366 ≤ rd d2 := by omega
      omega
  have hdb2 : daysBeforeYear d2.year = rd (dec31 d1.year) := by
    rw [hy21, hrd31]
  have hup : rd (dec31 d1.year) < rd d2 := by omega
  have hsame : (rd (dec31 d1.year) - 1) / 7 = (rd d2 - 1) / 7 := by omega
  refine ⟨?_, hy21, ?_⟩
  · omega
  · omega

/-! ## The week bucket as a (year, week-number) pair -/

/-- The (year, `%W` week) pair that `get_week` formats. -/
def bucketP (d : Date) : Nat × Nat :=
  if weekW d = 0 then (d.year - 1, weekW (dec31 (d.year - 1)))
  else (d.year, weekW d)

/-- Two valid dates produce the same bucket pair iff they lie in the
same Monday-to-Sunday calendar week. -/
theorem bucketP_eq_iff {d1 d2 : Date} (h1 : d1.valid) (h2 : d2.valid) :
    bucketP d1 = bucketP d2 ↔ mondayWeek d1 = mondayWeek d2 := by
  constructor
  · intro hb
    unfold bucketP at hb
    split_ifs at hb with hw1 hw2 hw2
    · -- both week 0
      obtain ⟨hy1, he1⟩ := weekW_zero_same_week h1 hw1
      obtain ⟨hy2, he2⟩ := weekW_zero_same_week h2 hw2
      have : d1.year - 1 = d2.year - 1 := congrArg Prod.fst hb
      rw [he1, he2, this]
    · -- W d1 = 0, W d2 ≠ 0
      obtain ⟨hy1, he1⟩ := weekW_zero_same_week h1 hw1
      have hyy : d1.year - 1 = d2.year := congrArg Prod.fst hb
      have hww : weekW (dec31 (d1.year - 1)) = weekW d2 :=
        congrArg Prod.snd hb
      have hv31 : (dec31 (d1.year - 1)).valid := dec31_valid (by omega)
      have := (weekW_same_year hv31 h2 (by simp [dec31, hyy])).mp hww
      rw [he1, this]
    · -- W d1 ≠ 0, W d2 = 0
      obtain ⟨hy2, he2⟩ := weekW_zero_same_week h2 hw2
      have hyy : d1.year = d2.year - 1 := congrArg Prod.fst hb
      have hww : weekW d1 = weekW (dec31 (d2.year - 1)) :=
        congrArg Prod.snd hb
      have hv31 : (dec31 (d2.year - 1)).valid := dec31_valid (by omega)
      have := (weekW_same_year h1 hv31 (by simp [dec31, hyy])).mp hww
      rw [this, ← he2]
    · -- both nonzero: same year, same W
      have hyy : d1.year = d2.year := congrArg Prod.fst hb
      have hww : weekW d1 = weekW d2 := congrArg Prod.snd hb
      exact (weekW_same_year h1 h2 hyy).mp hww
  · intro hw
    rcases Nat.lt_trichotomy d1.year d2.year with hy | hy | hy
    · obtain ⟨hw2, hy21, he2⟩ := cross_year_same_week h1 h2 hy hw
      have hy1 : 1 ≤ d1.year := h1.1
      unfold bucketP
      rw [if_neg ?neq, if_pos hw2]
      case neq =>
        -- weekW d1 = 0 would put d1 in the week of dec31 (d1.year - 1),
        -- which cannot also be the week of dec31 d1.year
        intro hw1
        obtain ⟨hy12, he1⟩ := weekW_zero_same_week h1 hw1
        have hrdA : rd (dec31 (d1.year - 1)) = daysBeforeYear d1.year := by
          have := rd_dec31 (y := d1.year - 1) (by omega)
          have he : d1.year - 1 + 1 = d1.year := by omega
          rwa [he] at this
        have hrdB : rd (dec31 d1.year) = daysBeforeYear (d1.year + 1) :=
          rd_dec31 (by omega)
        have hsu := daysBeforeYear_succ (y := d1.year) (by omega)
        have : mondayWeek (dec31 (d1.year - 1)) =
            mondayWeek (dec31 d1.year) := by
          rw [← he1, hw, he2]
        unfold mondayWeek leapN at *
        split_ifs at hsu <;> omega
      have hvy : d2.year - 1 = d1.year := by omega
      rw [hvy]
      -- d1 and dec31 d1.year share year and Monday-week
      have hv31 : (dec31 d1.year).valid := dec31_valid hy1
      have := (weekW_same_year h1 hv31 (by simp [dec31])).mpr
        (by rw [hw, he2])
      rw [this]
    · -- same year
      have hww := (weekW_same_year h1 h2 hy).mpr hw
      unfold bucketP
      rw [hy, hww]
    · obtain ⟨hw1, hy12, he1⟩ := cross_year_same_week h2 h1 hy hw.symm
      have hy2 : 1 ≤ d2.year := h2.1
      unfold bucketP
      rw [if_pos hw1, if_neg ?neq2]
      case neq2 =>
        intro hw2
        obtain ⟨hy22, he2⟩ := weekW_zero_same_week h2 hw2
        have hrdA : rd (dec31 (d2.year - 1)) = daysBeforeYear d2.year := by
          have := rd_dec31 (y := d2.year - 1) (by omega)
          have he : d2.year - 1 + 1 = d2.year := by omega
          rwa [he] at this
        have hrdB : rd (dec31 d2.year) = daysBeforeYear (d2.year + 1) :=
          rd_dec31 (by omega)
        have hsu := daysBeforeYear_succ (y := d2.year) (by omega)
        have : mondayWeek (dec31 (d2.year - 1)) =
            mondayWeek (dec31 d2.year) := by
          rw [← he2, ← hw, he1]
        unfold mondayWeek leapN at *
        split_ifs at hsu <;> omega
      have hvy : d1.year - 1 = d2.year := by omega
      rw [hvy]
      have hv31 : (dec31 d2.year).valid := dec31_valid hy2
      have := (weekW_same_year h2 hv31 (by simp [dec31])).mpr
        (by rw [← hw, he1])
      rw [this]

/-! ## Facts about the decimal formatting -/

theorem natDigitsAux_irrel (n : Nat) : ∀ f1 f2 : Nat, n < f1 → n < f2 →
    natDigitsAux f1 n = natDigitsAux f2 n := by
  induction n using Nat.strong_induction_on with
  | _ n ih =>
    intro f1 f2 h1 h2
    obtain ⟨g1, rfl⟩ : ∃ g, f1 = g + 1 := ⟨f1 - 1, by omega⟩
    obtain ⟨g2, rfl⟩ : ∃ g, f2 = g + 1 := ⟨f2 - 1, by omega⟩
    show (if n < 10 then [digitChar n]
      else natDigitsAux g1 (n / 10) ++ [digitChar (n % 10)]) =
      (if n < 10 then [digitChar n]
      else natDigitsAux g2 (n / 10) ++ [digitChar (n % 10)])
    by_cases hn : n < 10
    · rw [if_pos hn, if_pos hn]
    · rw [if_neg hn, if_neg hn]
      have hd : n / 10 < n := by omega
      rw [ih (n / 10) hd g1 g2 (by omega) (by omega)]

theorem natDigits_unfold (n : Nat) : natDigits n =
    if n < 10 then [digitChar n]
    else natDigits (n / 10) ++ [digitChar (n % 10)] := by
  show (if n < 10 then [digitChar n]
    else natDigitsAux n (n / 10) ++ [digitChar (n % 10)]) = _
  by_cases hn : n < 10
  · rw [if_pos hn, if_pos hn]
  · rw [if_neg hn, if_neg hn]
    rw [natDigitsAux_irrel (n / 10) n (n / 10 + 1) (by omega) (by omega)]
    rfl

theorem natDigits_small {n : Nat} (h : n < 10) :
    natDigits n = [digitChar n] := by
  rw [natDigits_unfold, if_pos h]

theorem natDigits_two {n : Nat} (h10 : 10 ≤ n) (h : n ≤ 99) :
    natDigits n = [digitChar (n / 10), digitChar (n % 10)] := by
  rw [natDigits_unfold, if_neg (by omega), natDigits_small (by omega)]
  rfl

theorem natDigits_ne_nil (n : Nat) : natDigits n ≠ [] := by
  rw [natDigits_unfold]
  by_cases hn : n < 10
  · rw [if_pos hn]; simp
  · rw [if_neg hn]; simp

theorem digitChar_inj {a b : Nat} (ha : a < 10) (hb : b < 10)
    (h : digitChar a = digitChar b) : a = b := by
  interval_cases a <;> interval_cases b <;> revert h <;> decide

theorem natDigits_inj {m : Nat} : ∀ {n : Nat},
    natDigits m = natDigits n → m = n := by
  induction m using Nat.strong_induction_on with
  | _ m ih =>
    intro n h
    rw [natDigits_unfold m, natDigits_unfold n] at h
    by_cases hm : m < 10 <;> by_cases hn : n < 10
    · rw [if_pos hm, if_pos hn] at h
      exact digitChar_inj hm hn (by simpa using h)
    · rw [if_pos hm, if_neg hn] at h
      exfalso
      have hlen := congrArg List.length h
      have hne := natDigits_ne_nil (n / 10)
      simp at hlen
      rcases List.eq_nil_or_concat (natDigits (n / 10)) with he | ⟨l, c, he⟩
      · exact hne he
      · rw [he] at hlen; simp at hlen
    · rw [if_neg hm, if_pos hn] at h
      exfalso
      have hlen := congrArg List.length h
      have hne := natDigits_ne_nil (m / 10)
      simp at hlen
      rcases List.eq_nil_or_concat (natDigits (m / 10)) with he | ⟨l, c, he⟩
      · exact hne he
      · rw [he] at hlen; simp at hlen
    · rw [if_neg hm, if_neg hn] at h
      obtain ⟨ha, hb⟩ := List.append_inj' h (by rfl)
      have hd : m % 10 = n % 10 :=
        digitChar_inj (by omega) (by omega) (by simpa using hb)
      have hq : m / 10 = n / 10 := ih (m / 10) (by omega) ha
      omega

theorem pad2_len {n : Nat} (h : n ≤ 99) : (pad2 n).length = 2 := by
  unfold pad2
  by_cases hn : n < 10
  · rw [if_pos hn, natDigits_small hn]; rfl
  · rw [if_neg hn, natDigits_two (by omega) h]; rfl

theorem pad2_eq_00_iff {n : Nat} (h99 : n ≤ 99) :
    pad2 n = ['0', '0'] ↔ n = 0 := by
  constructor
  · intro h
    unfold pad2 at h
    by_cases hn : n < 10
    · rw [if_pos hn, natDigits_small hn] at h
      have : digitChar n = '0' := by simpa using h
      exact digitChar_inj hn (by omega) (by simpa [digitChar] using this)
    · rw [if_neg hn, natDigits_two (by omega) h99] at h
      have hh := ((List.cons.injEq _ _ _ _).mp h).1
      have : n / 10 = 0 := digitChar_inj (by omega) (by omega)
        (by simpa [digitChar] using hh)
      omega
  · intro h
    subst h
    rfl

theorem pad2_inj {m n : Nat} (hm : m ≤ 99) (hn : n ≤ 99)
    (h : pad2 m = pad2 n) : m = n := by
  unfold pad2 at h
  by_cases h1 : m < 10 <;> by_cases h2 : n < 10
  · rw [if_pos h1, if_pos h2, natDigits_small h1, natDigits_small h2] at h
    exact digitChar_inj h1 h2 (by simpa using h)
  · rw [if_pos h1, if_neg h2, natDigits_small h1,
      natDigits_two (by omega) hn] at h
    have : (0 : Nat) = n / 10 :=
      digitChar_inj (by omega) (by omega)
        (by simpa [digitChar] using (List.cons.injEq _ _ _ _).mp h |>.1)
    omega
  · rw [if_neg h1, if_pos h2, natDigits_two (by omega) hm,
      natDigits_small h2] at h
    have : m / 10 = 0 :=
      digitChar_inj (by omega) (by omega)
        (by simpa [digitChar] using (List.cons.injEq _ _ _ _).mp h |>.1)
    omega
  · rw [if_neg h1, if_neg h2, natDigits_two (by omega) hm,
      natDigits_two (by omega) hn] at h
    obtain ⟨hh, ht⟩ := (List.cons.injEq _ _ _ _).mp h
    have e1 : m / 10 = n / 10 := digitChar_inj (by omega) (by omega) hh
    have e2 : m % 10 = n % 10 :=
      digitChar_inj (by omega) (by omega) (by simpa using ht)
    omega

/-- A length-3 candidate is a suffix of `l1 ++ l2` with `|l2| = 3` iff it
equals `l2`. -/
theorem suffix_of_append_same_len {t l1 l2 : List Char}
    (h : t.length = l2.length) :
    (List.isSuffixOf t (l1 ++ l2)) = true ↔ t = l2 := by
  rw [List.isSuffixOf_iff_suffix]
  constructor
  · rintro ⟨p, hp⟩
    have hl : p.length + t.length = l1.length + l2.length := by
      have := congrArg List.length hp
      simpa using this
    exact (List.append_inj' hp (by omega)).2
  · rintro rfl
    exact ⟨l1, rfl⟩

theorem fmtYw_suffix_w00 {y w : Nat} (hw : w ≤ 99) :
    (List.isSuffixOf ('w' :: '0' :: '0' :: []) (fmtYw y w)) = true ↔
      w = 0 := by
  unfold fmtYw
  rw [suffix_of_append_same_len (by simp [pad2_len hw])]
  constructor
  · intro h
    have hp : pad2 w = ['0', '0'] := by
      have := (List.cons.injEq _ _ _ _).mp h
      exact this.2.symm
    exact (pad2_eq_00_iff hw).mp hp
  · intro h
    subst h
    rfl

theorem fmtYw_inj {y1 w1 y2 w2 : Nat} (hw1 : w1 ≤ 99) (hw2 : w2 ≤ 99)
    (h : fmtYw y1 w1 = fmtYw y2 w2) : y1 = y2 ∧ w1 = w2 := by
  unfold fmtYw at h
  obtain ⟨ha, hb⟩ := List.append_inj' h
    (by simp [pad2_len hw1, pad2_len hw2])
  refine ⟨natDigits_inj ha, ?_⟩
  have := (List.cons.injEq _ _ _ _).mp hb
  exact pad2_inj hw1 hw2 this.2

/-! ## `get_week` in terms of the bucket pair -/

theorem weekW_le {d : Date} (h : d.valid) : weekW d ≤ 53 := by
  have hb := dayOfYear_bounds h
  have hl := leapN_le d.year
  have e0 : weekW d = (dayOfYear d + 6 - (rd d - 1) % 7) / 7 := rfl
  omega

theorem bucketP_fst_snd {d : Date} (h : d.valid) :
    1 ≤ (bucketP d).2 ∧ (bucketP d).2 ≤ 53 := by
  unfold bucketP
  by_cases h0 : weekW d = 0
  · rw [if_pos h0]
    have hy2 := (weekW_zero_same_week h h0).1
    have hv : (dec31 (d.year - 1)).valid := dec31_valid (by omega)
    exact ⟨weekW_dec31_pos _, weekW_le hv⟩
  · rw [if_neg h0]
    exact ⟨by omega, weekW_le h⟩

/-- `get_week` formats exactly the bucket pair. -/
theorem get_week_eq_fmt {d : Date} (h : d.valid) :
    get_week d = fmtYw (bucketP d).1 (bucketP d).2 := by
  unfold get_week bucketP
  by_cases h0 : weekW d = 0
  · rw [if_pos ((fmtYw_suffix_w00 (by have := weekW_le h; omega)).mpr h0),
      if_pos h0]
  · rw [if_neg ?hcond, if_neg h0]
    case hcond =>
      intro hc
      exact h0 ((fmtYw_suffix_w00 (by have := weekW_le h; omega)).mp hc)

/-- Two valid dates get the same `get_week` string iff they lie in the
same Monday-to-Sunday calendar week. -/
theorem get_week_eq_iff_same_monday_week {d1 d2 : Date}
    (h1 : d1.valid) (h2 : d2.valid) :
    get_week d1 = get_week d2 ↔ mondayWeek d1 = mondayWeek d2 := by
  rw [get_week_eq_fmt h1, get_week_eq_fmt h2, ← bucketP_eq_iff h1 h2]
  constructor
  · intro h
    obtain ⟨ha, hb⟩ := fmtYw_inj (by have := bucketP_fst_snd h1; omega)
      (by have := bucketP_fst_snd h2; omega) h
    exact Prod.ext ha hb
  · intro h
    rw [h]

/-! ## Claims C4, C5, C10 -/

/-- C4, counterexample to the claim as stated: Sunday 2023-01-08 and
Monday 2023-01-09 lie in the same Sunday-to-Saturday calendar week
(equal `sundayWeek`; the `mondayIdx` conjuncts witness the weekdays),
yet `get_week` puts them in different buckets ("2023w01" vs "2023w02").
So `get_week d1 = get_week d2` is not equivalent to `d1` and `d2`
sharing a Sunday-to-Saturday week. -/
theorem c4_sunday_week_counterexample :
    (⟨2023, 1, 8⟩ : Date).valid ∧ (⟨2023, 1, 9⟩ : Date).valid ∧
      sundayWeek ⟨2023, 1, 8⟩ = sundayWeek ⟨2023, 1, 9⟩ ∧
      mondayIdx ⟨2023, 1, 8⟩ = 6 ∧ mondayIdx ⟨2023, 1, 9⟩ = 0 ∧
      get_week ⟨2023, 1, 8⟩ ≠ get_week ⟨2023, 1, 9⟩ := by
  decide

/-- C4 (amended): for every pair of valid dates,
`get_week d1 = get_week d2` iff `d1` and `d2` fall in the same
**Monday-to-Sunday** calendar week (Python's `%W` weeks start on
Monday, not Sunday). -/
theorem c4_same_bucket_iff_same_monday_week (d1 d2 : Date)
    (h1 : d1.valid) (h2 : d2.valid) :
    get_week d1 = get_week d2 ↔ mondayWeek d1 = mondayWeek d2 :=
  get_week_eq_iff_same_monday_week h1 h2

theorem c4_witness :
    (⟨2022, 12, 26⟩ : Date).valid ∧ (⟨2023, 1, 1⟩ : Date).valid ∧
      (get_week ⟨2022, 12, 26⟩ = get_week ⟨2023, 1, 1⟩ ↔
        mondayWeek ⟨2022, 12, 26⟩ = mondayWeek ⟨2023, 1, 1⟩) :=
  ⟨by decide, by decide,
    c4_same_bucket_iff_same_monday_week _ _ (by decide) (by decide)⟩

/-- C5: for every valid date whose direct `%Yw%W` formatting yields week
"00" (`weekW d = 0`), `get_week` returns the bucket computed from
December 31 of the previous year; in particular January 1 2023 gets the
final-week bucket of 2022 ("2022w52", equal to `get_week` of
2022-12-31), not "2023w00". -/
theorem c5_w00_recomputed_from_prev_dec31 :
    (∀ d : Date, d.valid → weekW d = 0 →
      get_week d = fmtYw (d.year - 1) (weekW (dec31 (d.year - 1)))) ∧
      weekW ⟨2023, 1, 1⟩ = 0 ∧
      get_week ⟨2023, 1, 1⟩ = get_week ⟨2022, 12, 31⟩ ∧
      get_week ⟨2022, 12, 31⟩ = "2022w52".data ∧
      fmtYw 2023 0 = "2023w00".data ∧
      get_week ⟨2023, 1, 1⟩ ≠ fmtYw 2023 0 := by
  refine ⟨?_, by decide, by decide, by decide, by decide, by decide⟩
  intro d h h0
  unfold get_week
  rw [if_pos ((fmtYw_suffix_w00 (by have := weekW_le h; omega)).mpr h0)]

theorem c5_witness :
    (⟨2023, 1, 1⟩ : Date).valid ∧ weekW ⟨2023, 1, 1⟩ = 0 ∧
      get_week ⟨2023, 1, 1⟩ = fmtYw 2022 (weekW (dec31 2022)) :=
  ⟨by decide, by decide,
    c5_w00_recomputed_from_prev_dec31.1 _ (by decide) (by decide)⟩

/-- C10: for every valid date in a year greater than 1, the bucket
returned by `get_week` never ends in week "00": the week-number
component of the bucket pair is at least 1, and the returned string is
the formatting of that pair, so the `"w00"` suffix test is false on it. -/
theorem c10_no_w00_bucket (d : Date) (h : d.valid) (hy : 2 ≤ d.year) :
    List.isSuffixOf ('w' :: '0' :: '0' :: []) (get_week d) = false ∧
      1 ≤ (bucketP d).2 ∧
      get_week d = fmtYw (bucketP d).1 (bucketP d).2 := by
  have hb := bucketP_fst_snd h
  refine ⟨?_, hb.1, get_week_eq_fmt h⟩
  rw [get_week_eq_fmt h]
  rcases Bool.eq_false_or_eq_true
    (List.isSuffixOf ('w' :: '0' :: '0' :: [])
      (fmtYw (bucketP d).1 (bucketP d).2)) with hx | hx
  · exact absurd ((fmtYw_suffix_w00 (by omega)).mp hx) (by omega)
  · exact hx

theorem c10_witness :
    (⟨2023, 1, 1⟩ : Date).valid ∧ 2 ≤ (2023 : Nat) ∧
      List.isSuffixOf ('w' :: '0' :: '0' :: [])
        (get_week ⟨2023, 1, 1⟩) = false :=
  ⟨by decide, by decide, (c10_no_w00_bucket _ (by decide) (by decide)).1⟩

/-! ## `sanitise_entry` and `fetch_entries_http` (src/bandeco.py:57-130)

A raw record is one four-tuple captured by the extraction pattern
`cdpdia:"(.+?)",.*?dtarfi:"(.+?)",.*?tiprfi:"(\w)",.*?vlrclorfi:(\d+)`;
the regular-expression scan over the raw response text is abstracted as
the list of captured tuples, constrained by `RawEntry.shape` below. -/

/-- One tuple captured by the record-extraction pattern. -/
structure RawEntry where
  menu : List Char
  date : List Char
  meal : List Char
  calories : List Char
deriving DecidableEq, Repr

/-- The shape the extraction pattern guarantees for each captured tuple:
nonempty menu and date without newlines, a single word-character meal
code, and a nonempty all-digit calorie string. -/
def RawEntry.shape (e : RawEntry) : Prop :=
  e.menu ≠ [] ∧ e.menu.all (fun c => c ≠ '\n') ∧
    e.date ≠ [] ∧ e.date.all (fun c => c ≠ '\n') ∧
    (∃ c : Char, e.meal = [c] ∧ (c.isAlphanum ∨ c = '_')) ∧
    e.calories ≠ [] ∧ e.calories.all Char.isDigit

/-- Errors raised while sanitising one record:
`unknownMealCode` models the `KeyError` of the meal-code dict lookup,
`malformedCalories` the `ValueError` of `int(...)`, `badEscape` the
`UnicodeDecodeError` of `.decode("unicode_escape")`. -/
inductive SanError where
  | unknownMealCode (code : List Char)
  | malformedCalories (text : List Char)
  | badEscape
deriving DecidableEq, Repr

/-- Left-to-right, non-overlapping replacement of `pat` by `rep`
(Python `str.replace`), fueled by the input length. -/
def replaceAllAux (pat rep : List Char) : Nat → List Char → List Char
  | 0, _ => []
  | _, [] => []
  | fuel + 1, c :: cs =>
    if pat.isPrefixOf (c :: cs) then
      rep ++ replaceAllAux pat rep fuel ((c :: cs).drop pat.length)
    else c :: replaceAllAux pat rep fuel cs

/-- Python `s.replace(pat, rep)` for a nonempty `pat`. -/
def replaceAll (pat rep s : List Char) : List Char :=
  replaceAllAux pat rep (s.length + 1) s

/-- UTF-8 encoding of one character (Python `str.encode()`), as bytes. -/
def utf8Encode (c : Char) : List Nat :=
  let n := c.toNat
  if n < 128 then [n]
  else if n < 2048 then [192 + n / 64, 128 + n % 64]
  else if n < 65536 then
    [224 + n / 4096, 128 + (n / 64) % 64, 128 + n % 64]
  else
    [240 + n / 262144, 128 + (n / 4096) % 64, 128 + (n / 64) % 64,
      128 + n % 64]

/-- UTF-8 encoding of a string as a byte list. -/
def strToBytes (s : List Char) : List Nat := (s.map utf8Encode).flatten

def isOctalByte (b : Nat) : Bool := 48 ≤ b && b ≤ 55

def isHexByte (b : Nat) : Bool :=
  (48 ≤ b && b ≤ 57) || (97 ≤ b && b ≤ 102) || (65 ≤ b && b ≤ 70)

def hexVal (b : Nat) : Nat :=
  if b ≤ 57 then b - 48 else if b ≤ 70 then b - 55 else b - 87

/-- Reads exactly `k` hexadecimal digit bytes; `none` models Python's
"truncated escape" `UnicodeDecodeError`. -/
def readHex : Nat → List Nat → Nat → Option (Nat × List Nat)
  | 0, bs, acc => some (acc, bs)
  | k + 1, [], _ => none
  | k + 1, b :: bs, acc =>
    if isHexByte b then readHex k bs (16 * acc + hexVal b) else none

/-- A code point accepted by Lean's `Char`; Python would also accept
lone surrogates here, which cannot occur in the menus this code feeds
in, so they are mapped to the error case. -/
def mkChar? (n : Nat) : Option Char :=
  if n < 55296 ∨ (57343 < n ∧ n < 1114112) then some (Char.ofNat n)
  else none

/-- One step of `bytes.decode("unicode_escape")` (fueled).  Non-escape
bytes are decoded as Latin-1; escape sequences follow CPython:
single-character escapes, up-to-3-digit octal, `\xhh`, `\uhhhh`,
`\Uhhhhhhhh`, backslash-newline line continuation; an unknown escape
keeps the backslash; a trailing backslash or truncated escape is an
error.  (`\N{name}` lookups are not modelled and map to the error
case; the menus this code feeds in never contain them.) -/
def unescapeBytes : Nat → List Nat → Except SanError (List Char)
  | 0, _ => .ok []
  | _, [] => .ok []
  | fuel + 1, 92 :: rest =>
    match rest with
    | [] => .error .badEscape
    | b :: bs =>
      if b = 10 then unescapeBytes fuel bs
      else if b = 92 then do pure ('\\' :: (← unescapeBytes fuel bs))
      else if b = 39 then do pure ('\'' :: (← unescapeBytes fuel bs))
      else if b = 34 then do pure ('"' :: (← unescapeBytes fuel bs))
      else if b = 98 then do pure ('\x08' :: (← unescapeBytes fuel bs))
      else if b = 102 then do pure ('\x0c' :: (← unescapeBytes fuel bs))
      else if b = 116 then do pure ('\t' :: (← unescapeBytes fuel bs))
      else if b = 110 then do pure ('\n' :: (← unescapeBytes fuel bs))
      else if b = 114 then do pure ('\r' :: (← unescapeBytes fuel bs))
      else if b = 118 then do pure ('\x0b' :: (← unescapeBytes fuel bs))
      else if b = 97 then do pure ('\x07' :: (← unescapeBytes fuel bs))
      else if isOctalByte b then
        match bs with
        | b2 :: b3 :: bs' =>
          if isOctalByte b2 && isOctalByte b3 then do
            pure (Char.ofNat (64 * (b - 48) + 8 * (b2 - 48) + (b3 - 48)) ::
              (← unescapeBytes fuel bs'))
          else if isOctalByte b2 then do
            pure (Char.ofNat (8 * (b - 48) + (b2 - 48)) ::
              (← unescapeBytes fuel (b3 :: bs')))
          else do
            pure (Char.ofNat (b - 48) :: (← unescapeBytes fuel (b2 :: b3 :: bs')))
        | [b2] =>
          if isOctalByte b2 then do
            pure (Char.ofNat (8 * (b - 48) + (b2 - 48)) ::
              (← unescapeBytes fuel []))
          else do
            pure (Char.ofNat (b - 48) :: (← unescapeBytes fuel [b2]))
        | [] => .ok [Char.ofNat (b - 48)]
      else if b = 120 then
        match readHex 2 bs 0 with
        | none => .error .badEscape
        | some (n, bs') => do pure (Char.ofNat n :: (← unescapeBytes fuel bs'))
      else if b = 117 then
        match readHex 4 bs 0 with
        | none => .error .badEscape
        | some (n, bs') =>
          match mkChar? n with
          | none => .error .badEscape
          | some c => do pure (c :: (← unescapeBytes fuel bs'))
      else if b = 85 then
        match readHex 8 bs 0 with
        | none => .error .badEscape
        | some (n, bs') =>
          match mkChar? n with
          | none => .error .badEscape
          | some c => do pure (c :: (← unescapeBytes fuel bs'))
      else if b = 78 then .error .badEscape
      else do
        pure ('\\' :: Char.ofNat b :: (← unescapeBytes fuel bs))
  | fuel + 1, b :: bs => do pure (Char.ofNat b :: (← unescapeBytes fuel bs))

/-- Python `s.encode().decode("unicode_escape")`. -/
def unicodeUnescape (s : List Char) : Except SanError (List Char) :=
  let bs := strToBytes s
  unescapeBytes (bs.length + 1) bs

/-- The meal-code dict lookup `{"A": "lunch", "J": "dinner"}[meal]`;
any other code raises (`KeyError`, modelled as `unknownMealCode`). -/
def mealName (m : List Char) : Except SanError (List Char) :=
  if m = "A".data then .ok "lunch".data
  else if m = "J".data then .ok "dinner".data
  else .error (.unknownMealCode m)

/-- `int(calories)` for the all-digit strings the pattern captures;
any other text raises (`ValueError`, modelled as `malformedCalories`). -/
def parseCalories (s : List Char) : Except SanError Nat :=
  if s ≠ [] ∧ s.all Char.isDigit then
    .ok (s.foldl (fun a c => 10 * a + (c.toNat - 48)) 0)
  else .error (.malformedCalories s)

/-- The sanitised record produced by `sanitise_entry`. -/
structure SanEntry where
  menu : List Char
  date : List Char
  meal : List Char
  calories : Nat
deriving DecidableEq, Repr

/-- Embedding of `sanitise_entry` (src/bandeco.py:57-86): sanitise the
menu text (unescape `\/`, decode backslash escapes, `<br>` to newline,
strip remaining backslashes), strip backslashes from the date, map the
meal code through the two-entry dict, convert the calories to an
integer.  A raised exception is an `.error` result. -/
def sanitise_entry (e : RawEntry) : Except SanError SanEntry := do
  let m1 := replaceAll "\\/".data "/".data e.menu
  let m2 ← unicodeUnescape m1
  let m3 := replaceAll "<br>".data "\n".data m2
  let m4 := replaceAll "\\".data [] m3
  let date := replaceAll "\\".data [] e.date
  let meal ← mealName e.meal
  let calories ← parseCalories e.calories
  pure ⟨m4, date, meal, calories⟩

/-- The value stored per key in a `MenuEntrySet`. -/
structure MenuEntry where
  menu : List Char
  calories : Nat
deriving DecidableEq, Repr

/-- A `MenuEntrySet`: insertion-ordered association list modelling the
Python dict keyed by `"<date>-<meal>"`. -/
abbrev Entries := List (List Char × MenuEntry)

/-- Python dict insertion: an existing key is overwritten in place
(last write wins), a new key is appended. -/
def dictInsert (d : Entries) (kv : List Char × MenuEntry) : Entries :=
  if d.any (fun p => p.1 == kv.1) then
    d.map (fun p => if p.1 == kv.1 then (p.1, kv.2) else p)
  else d ++ [kv]

/-- Embedding of `entry_to_key_value` (src/bandeco.py:89-94). -/
def entry_to_key_value (e : RawEntry) :
    Except SanError (List Char × MenuEntry) := do
  let v ← sanitise_entry e
  pure (v.date ++ '-' :: v.meal, ⟨v.menu, v.calories⟩)

/-- Embedding of `fetch_entries_http` (src/bandeco.py:97-130) applied to
the tuples captured by the extraction pattern: build the dict from the
key-value pairs; the first exception raised while sanitising a record
propagates out of the whole fetch. -/
def fetch_entries_http (records : List RawEntry) :
    Except SanError Entries :=
  records.foldlM
    (fun d e => do pure (dictInsert d (← entry_to_key_value e))) []

example : fetch_entries_http [] = .ok [] := rfl

/-! ## Claims C9 and C2 -/

/-- `sanitise_entry` written out as the chain of `Except` binds. -/
theorem sanitise_entry_eq (e : RawEntry) :
    sanitise_entry e =
      Except.bind (unicodeUnescape (replaceAll "\\/".data "/".data e.menu))
        (fun m2 => Except.bind (mealName e.meal)
          (fun meal => Except.bind (parseCalories e.calories)
            (fun calories => Except.ok
              ⟨replaceAll "\\".data []
                  (replaceAll "<br>".data "\n".data m2),
                replaceAll "\\".data [] e.date, meal, calories⟩))) := rfl

/-- C9: the meal-code sanitisation inside `sanitise_entry` is the closed
two-entry mapping {"A" ↦ "lunch", "J" ↦ "dinner"}: any other meal-code
string makes the lookup raise `UnknownMealCode`, and `sanitise_entry`
aborts with that error for the record (shown for records whose menu and
date are benign) instead of dropping or defaulting it. -/
theorem c9_meal_code_closed_total :
    mealName "A".data = .ok "lunch".data ∧
      mealName "J".data = .ok "dinner".data ∧
      (∀ m : List Char, m ≠ "A".data → m ≠ "J".data →
        mealName m = .error (.unknownMealCode m)) ∧
      (∀ m cal : List Char, m ≠ "A".data → m ≠ "J".data →
        sanitise_entry ⟨[], [], m, cal⟩ = .error (.unknownMealCode m)) := by
  have hm : ∀ m : List Char, m ≠ "A".data → m ≠ "J".data →
      mealName m = .error (.unknownMealCode m) := by
    intro m h1 h2
    unfold mealName
    rw [if_neg h1, if_neg h2]
  refine ⟨rfl, rfl, hm, ?_⟩
  intro m cal h1 h2
  rw [sanitise_entry_eq, hm m h1 h2]
  rfl

theorem c9_witness :
    mealName "X".data = .error (.unknownMealCode "X".data) ∧
      sanitise_entry ⟨[], [], "X".data, "9".data⟩ =
        .error (.unknownMealCode "X".data) :=
  ⟨c9_meal_code_closed_total.2.2.1 _ (by decide) (by decide),
    c9_meal_code_closed_total.2.2.2 _ _ (by decide) (by decide)⟩

/-- C2, counterexample to the claim as stated: the tuple
`("m", "d", "X", "1")` is capturable by the extraction pattern ("X" is
a word character, "1" is a digit string), yet `fetch_entries_http`
applied to it aborts with `UnknownMealCode` instead of returning a
(smaller) `MenuEntrySet`. -/
theorem c2_fetch_abort_counterexample :
    (⟨"m".data, "d".data, "X".data, "1".data⟩ : RawEntry).shape ∧
      fetch_entries_http [⟨"m".data, "d".data, "X".data, "1".data⟩] =
        .error (.unknownMealCode "X".data) ∧
      ∀ es : Entries,
        fetch_entries_http [⟨"m".data, "d".data, "X".data, "1".data⟩] ≠
          .ok es := by
  have he : fetch_entries_http [⟨"m".data, "d".data, "X".data, "1".data⟩] =
      .error (.unknownMealCode "X".data) := rfl
  refine ⟨?_, he, ?_⟩
  · exact ⟨by decide, by decide, by decide, by decide,
      ⟨'X', rfl, by decide⟩, by decide, by decide⟩
  · intro es h
    rw [he] at h
    exact Except.noConfusion h

/-- A captured record that sanitises cleanly: meal code "A" or "J",
nonempty all-digit calorie text (which the pattern guarantees), and a
menu whose escape sequences decode. -/
def RawEntry.sanitisable (e : RawEntry) : Prop :=
  (e.meal = "A".data ∨ e.meal = "J".data) ∧
    e.calories ≠ [] ∧ e.calories.all Char.isDigit ∧
    (unicodeUnescape (replaceAll "\\/".data "/".data e.menu)).isOk = true

instance (e : RawEntry) : Decidable e.sanitisable := by
  unfold RawEntry.sanitisable; exact inferInstance

/-- A cleanly-sanitisable record sanitises without an error. -/
theorem sanitise_ok {e : RawEntry} (h : e.sanitisable) :
    ∃ v, sanitise_entry e = .ok v := by
  obtain ⟨hmeal, hc1, hc2, hdec⟩ := h
  obtain ⟨m2, hm2⟩ : ∃ m2,
      unicodeUnescape (replaceAll "\\/".data "/".data e.menu) = .ok m2 := by
    rcases hu : unicodeUnescape (replaceAll "\\/".data "/".data e.menu)
      with e' | m2
    · rw [hu] at hdec
      exact absurd hdec (by simp [Except.isOk, Except.toBool])
    · exact ⟨m2, rfl⟩
  have hcal : parseCalories e.calories =
      .ok (e.calories.foldl (fun a c => 10 * a + (c.toNat - 48)) 0) := by
    unfold parseCalories
    rw [if_pos ⟨hc1, hc2⟩]
  rcases hmeal with hm | hm
  · refine ⟨⟨replaceAll "\\".data [] (replaceAll "<br>".data "\n".data m2),
      replaceAll "\\".data [] e.date, "lunch".data,
      e.calories.foldl (fun a c => 10 * a + (c.toNat - 48)) 0⟩, ?_⟩
    rw [sanitise_entry_eq, hm2, hm]
    simp [Except.bind, mealName, hcal]
  · refine ⟨⟨replaceAll "\\".data [] (replaceAll "<br>".data "\n".data m2),
      replaceAll "\\".data [] e.date, "dinner".data,
      e.calories.foldl (fun a c => 10 * a + (c.toNat - 48)) 0⟩, ?_⟩
    rw [sanitise_entry_eq, hm2, hm]
    simp [Except.bind, mealName, hcal]

/-- `entry_to_key_value` of a cleanly-sanitisable record. -/
theorem entry_to_key_value_ok {e : RawEntry} (h : e.sanitisable) :
    ∃ kv, entry_to_key_value e = .ok kv := by
  obtain ⟨v, hv⟩ := sanitise_ok h
  exact ⟨_, by unfold entry_to_key_value; rw [hv]; rfl⟩

/-- C2 (amended): raw response text that fails to match the extraction
pattern only reduces the captured records, possibly to none (the fetch
of the empty capture list is the empty `MenuEntrySet`); and whenever
every captured record has meal code "A" or "J" and a menu whose escape
sequences decode, the fetch returns a `MenuEntrySet`.  However a
captured record with any other meal code (or an undecodable menu)
aborts the whole fetch with a per-record error — see the
counterexample. -/
theorem c2_fetch_ok_of_sanitisable (records : List RawEntry)
    (h : ∀ e ∈ records, e.sanitisable) :
    fetch_entries_http [] = .ok [] ∧
      ∃ es : Entries, fetch_entries_http records = .ok es := by
  refine ⟨rfl, ?_⟩
  unfold fetch_entries_http
  suffices hs : ∀ acc : Entries, ∃ es, List.foldlM
      (fun d e => do pure (dictInsert d (← entry_to_key_value e)))
      acc records = .ok es from hs []
  induction records with
  | nil => intro acc; exact ⟨acc, rfl⟩
  | cons e es ih =>
    intro acc
    obtain ⟨kv, hkv⟩ := entry_to_key_value_ok (h e (by simp))
    obtain ⟨out, hout⟩ := ih (fun x hx => h x (by simp [hx])) (dictInsert acc kv)
    refine ⟨out, ?_⟩
    show Except.bind (Except.bind (entry_to_key_value e) _) _ = _
    rw [hkv]
    exact hout

theorem c2_witness :
    (∀ e ∈ [(⟨"Arroz \\/ Feij\\u00e3o<br>Salada".data, "09/10/2023".data,
        "A".data, "1200".data⟩ : RawEntry)], e.sanitisable) ∧
      fetch_entries_http [] = .ok [] ∧
      ∃ es, fetch_entries_http
        [⟨"Arroz \\/ Feij\\u00e3o<br>Salada".data, "09/10/2023".data,
          "A".data, "1200".data⟩] = .ok es :=
  ⟨by decide,
    (c2_fetch_ok_of_sanitisable
      [⟨"Arroz \\/ Feij\\u00e3o<br>Salada".data, "09/10/2023".data,
        "A".data, "1200".data⟩] (by decide)).1,
    (c2_fetch_ok_of_sanitisable
      [⟨"Arroz \\/ Feij\\u00e3o<br>Salada".data, "09/10/2023".data,
        "A".data, "1200".data⟩] (by decide)).2⟩

/-! ## `fetch_entries_cached`, `store_entries_cache` and the
orchestrator `main` (src/bandeco.py:133-146, 360-384)

The cache backend is abstracted by two functions: `read` (opening and
reading the cache file; `.error` models any `OSError`-like failure such
as a missing file or a permission error) and `deser` (`pickle.load`;
`.error` models a deserialisation failure on a corrupt blob).  The
`try/except Exception` in `fetch_entries_cached` catches both. -/

/-- A persisted cache blob (raw bytes). -/
abbrev Blob := List Nat

/-- A read-stage failure (`OSError`: missing file, permission error…). -/
structure ReadError where
  msg : List Char
deriving DecidableEq, Repr

/-- A deserialisation failure (`pickle.UnpicklingError` and kin). -/
structure DeserError where
  msg : List Char
deriving DecidableEq, Repr

/-- Embedding of `fetch_entries_cached`: try to open and unpickle the
blob stored under `key`; `except Exception: return None` turns every
failure of either stage into `none`. -/
def fetch_entries_cached (read : List Char → Except ReadError Blob)
    (deser : Blob → Except DeserError Entries) (key : List Char) :
    Option Entries :=
  match read key with
  | .error _ => none
  | .ok blob =>
    match deser blob with
    | .error _ => none
    | .ok entries => some entries

/-- The orchestrator's terminal states. -/
inductive Outcome where
  /-- Entries displayed; exit status 0. -/
  | served (entries : Entries)
  /-- "Unable to fetch menu for the requested date." — the
  StaleRequestUnavailable failure; exit status 1. -/
  | staleRequestUnavailable
  /-- "Failed to fetch menu for the requested restaurant." — the
  RemoteFetchEmpty failure; exit status 1. -/
  | remoteFetchEmpty
  /-- An exception from `fetch_entries_http` propagated to the
  top-level handler. -/
  | fetchError (e : SanError)
deriving DecidableEq, Repr

/-- The observable effects of one `main` run. -/
structure RunResult where
  outcome : Outcome
  /-- Whether `fetch_entries_http` was called. -/
  calledHttp : Bool
  /-- The `store_entries_cache` call, if reached: its key and entries. -/
  stored : Option (List Char × Entries)
deriving DecidableEq, Repr

/-- Embedding of `main` (src/bandeco.py:360-384) after argument
parsing: `today` is the invocation date, `day` the resolved date,
`restaurant` the resolved restaurant code; `cacheProbe` abstracts
`fetch_entries_cached` applied to the key, and `records` the tuples the
remote response would yield to `fetch_entries_http`.  Display is out of
scope; the run's observable behaviour is collected in `RunResult`. -/
def main (today day : Date) (restaurant : Nat)
    (cacheProbe : List Char → Option Entries)
    (records : List RawEntry) : RunResult :=
  let key := cache_key day restaurant
  match cacheProbe key with
  | some entries => ⟨.served entries, false, none⟩
  | none =>
    if ¬ is_current_week today day then ⟨.staleRequestUnavailable, false, none⟩
    else
      match fetch_entries_http records with
      | .error e => ⟨.fetchError e, true, none⟩
      | .ok entries =>
        if entries.isEmpty then ⟨.remoteFetchEmpty, true, none⟩
        else ⟨.served entries, true, some (key, entries)⟩

/-! ## Claims C8, C1, C7 -/

/-- C8: `fetch_entries_cached` never propagates an error: it returns
`none` exactly when the read stage or the deserialisation stage fails —
a corrupt blob behaves identically to a missing one — and it returns
entries only when both stages succeed. -/
theorem c8_cache_errors_become_none
    (read : List Char → Except ReadError Blob)
    (deser : Blob → Except DeserError Entries) (key : List Char) :
    ((∃ e, read key = .error e) →
      fetch_entries_cached read deser key = none) ∧
    (∀ blob, read key = .ok blob → (∃ e, deser blob = .error e) →
      fetch_entries_cached read deser key = none) ∧
    (∀ entries, fetch_entries_cached read deser key = some entries →
      ∃ blob, read key = .ok blob ∧ deser blob = .ok entries) := by
  refine ⟨?_, ?_, ?_⟩
  · rintro ⟨e, he⟩
    simp [fetch_entries_cached, he]
  · rintro blob hb ⟨e, he⟩
    simp [fetch_entries_cached, hb, he]
  · intro entries h
    unfold fetch_entries_cached at h
    rcases hr : read key with e | blob <;> simp [hr] at h
    rcases hd : deser blob with e | found <;> simp [hd] at h
    exact ⟨blob, rfl, by rw [hd, h]⟩

theorem c8_witness :
    (fetch_entries_cached (fun _ => .error ⟨"No such file".data⟩)
        (fun _ => .ok []) "2023w02r13".data = none) ∧
      (fetch_entries_cached (fun _ => .ok [0])
        (fun _ => .error ⟨"corrupt pickle".data⟩) "2023w02r13".data =
        none) :=
  ⟨(c8_cache_errors_become_none _ _ _).1 ⟨_, rfl⟩,
    (c8_cache_errors_become_none _ _ _).2.1 [0] rfl ⟨_, rfl⟩⟩

/-- C1: on a cache miss for a date outside the current week, `main`
terminates with the StaleRequestUnavailable failure, never calls
`fetch_entries_http` and never stores anything in the cache. -/
theorem c1_stale_request_no_fetch (today day : Date) (restaurant : Nat)
    (cacheProbe : List Char → Option Entries) (records : List RawEntry)
    (hmiss : cacheProbe (cache_key day restaurant) = none)
    (hstale : is_current_week today day = false) :
    main today day restaurant cacheProbe records =
      ⟨.staleRequestUnavailable, false, none⟩ := by
  simp [main, hmiss, hstale]

theorem c1_witness :
    (fun _ : List Char => (none : Option Entries))
        (cache_key ⟨2022, 12, 1⟩ 13) = none ∧
      is_current_week ⟨2023, 1, 20⟩ ⟨2022, 12, 1⟩ = false ∧
      main ⟨2023, 1, 20⟩ ⟨2022, 12, 1⟩ 13 (fun _ => none) [] =
        ⟨.staleRequestUnavailable, false, none⟩ :=
  ⟨rfl, by decide,
    c1_stale_request_no_fetch ⟨2023, 1, 20⟩ ⟨2022, 12, 1⟩ 13
      (fun _ => none) [] rfl (by decide)⟩

/-- C7: on a cache miss for the current week with an empty remote
result, `main` terminates with the RemoteFetchEmpty failure and stores
nothing; and in every run whatsoever, the store step is reached only
with a non-empty fetch result (under the key of the run, after a cache
miss on a current-week date). -/
theorem c7_empty_fetch_no_store (today day : Date) (restaurant : Nat)
    (cacheProbe : List Char → Option Entries) (records : List RawEntry)
    (hmiss : cacheProbe (cache_key day restaurant) = none)
    (hcur : is_current_week today day = true)
    (hempty : fetch_entries_http records = .ok []) :
    main today day restaurant cacheProbe records =
      ⟨.remoteFetchEmpty, true, none⟩ ∧
    (∀ today' day' restaurant' cacheProbe' records' key entries,
      (main today' day' restaurant' cacheProbe' records').stored =
          some (key, entries) →
        key = cache_key day' restaurant' ∧
        fetch_entries_http records' = .ok entries ∧ entries ≠ [] ∧
        cacheProbe' (cache_key day' restaurant') = none ∧
        is_current_week today' day' = true) := by
  constructor
  · simp [main, hmiss, hcur, hempty]
  · intro t' d' r' cp' recs' key entries h
    simp only [main] at h
    rcases hp : cp' (cache_key d' r') with _ | found <;> simp [hp] at h
    rcases hc : is_current_week t' d' with _ | _ <;> simp [hc] at h
    rcases hf : fetch_entries_http recs' with e | es <;> simp [hf] at h
    by_cases hnil : es = []
    · simp [hnil] at h
    · simp [hnil] at h
      obtain ⟨hk, he2⟩ := h
      subst he2
      exact ⟨hk.symm, rfl, hnil, rfl, rfl⟩

theorem c7_witness :
    main ⟨2023, 1, 20⟩ ⟨2023, 1, 18⟩ 13 (fun _ => none) [] =
        ⟨.remoteFetchEmpty, true, none⟩ ∧
      (main ⟨2023, 1, 20⟩ ⟨2023, 1, 18⟩ 13 (fun _ => none) []).stored =
        none :=
  ⟨(c7_empty_fetch_no_store ⟨2023, 1, 20⟩ ⟨2023, 1, 18⟩ 13
      (fun _ => none) [] rfl (by decide) rfl).1,
    by rw [(c7_empty_fetch_no_store ⟨2023, 1, 20⟩ ⟨2023, 1, 18⟩ 13
      (fun _ => none) [] rfl (by decide) rfl).1]⟩

/-! ## `get_restaurant_code` (src/bandeco.py:15-40, 215-223) -/

/-- The fixed restaurant catalog (src/bandeco.py:15-40). -/
def restaurants : List (List Char) :=
  ["PIRACICABA", "CENTRAL SAO CARLOS SC", "CAMPUS II SAO CARLOS SC",
   "CRHEA SAO CARLOS SC", "PIRASSUNUNGA", "CENTRAL", "PUSP-C SAO PAULO SP",
   "FISICA", "QUIMICA", "ADMINISTRACAO SAO PAULO SP",
   "FACULDADE SAUDE PUBLICA", "ESCOLA ENFERMAGEM", "EACH SAO PAULO SP",
   "FACULDADE DIREITO", "DPS CUASO SAO PAULO SP", "DPS EACH SAO PAULO SP",
   "EEL AREA I", "MEDICINA SAO PAULO SP", "RIBEIRAO PRETO", "BAURU",
   "PREFEITURA FERNANDO COSTA PIRASSUNUNGA", "WEB", "EEL AREA II",
   "REGISTRO ESTORNO"].map String.data

/-- Length of the common prefix of two lists. -/
def runLen : List Char → List Char → Nat
  | a :: as, b :: bs => if a = b then runLen as bs + 1 else 0
  | _, _ => 0

/-- `difflib.SequenceMatcher.find_longest_match` (no junk, which is the
case for the short catalog strings): the longest matching block
`(i, j, size)`; among maximal blocks the one starting earliest in `a`,
then earliest in `b` — the documented tie-breaking. -/
def findLongestMatch (a b : List Char) : Nat × Nat × Nat :=
  (List.range (a.length + 1)).foldl (fun best i =>
    (List.range (b.length + 1)).foldl (fun best j =>
      let k := runLen (a.drop i) (b.drop j)
      if best.2.2 < k then (i, j, k) else best) best) (0, 0, 0)

/-- Total matched size of `difflib.SequenceMatcher.get_matching_blocks`
(the Ratcliff-Obershelp recursion), fueled by the total length. -/
def matchTotalAux : Nat → List Char → List Char → Nat
  | 0, _, _ => 0
  | fuel + 1, a, b =>
    let m := findLongestMatch a b
    if m.2.2 = 0 then 0
    else matchTotalAux fuel (a.take m.1) (b.take m.2.1) + m.2.2 +
      matchTotalAux fuel (a.drop (m.1 + m.2.2)) (b.drop (m.2.1 + m.2.2))

def matchTotal (a b : List Char) : Nat :=
  matchTotalAux (a.length + b.length + 1) a b

/-- `difflib.SequenceMatcher(None, a, b).ratio()`, the rational
`2·M / (|a| + |b|)`.  (For the integer sizes that occur here, the
float ratios Python compares order exactly like these rationals.) -/
def ratio (a b : List Char) : Rat :=
  mkRat (2 * matchTotal a b) (a.length + b.length)

/-- Python `str.upper` (ASCII suffices for the catalog). -/
def upper (s : List Char) : List Char := s.map Char.toUpper

/-- Embedding of `get_restaurant_code`:
`max(enumerate(restaurants), key=compare)[0] + 1` where `compare` is
the ratio of the upper-cased input against the entry; Python's `max`
keeps the first of several maxima. -/
def get_restaurant_code (search : List Char) : Nat :=
  match restaurants.enum with
  | [] => 0
  | x :: xs =>
    (xs.foldl (fun best y =>
      if ratio (upper search) best.2 < ratio (upper search) y.2 then y
      else best) x).1 + 1

/-! ## Properties of the first-maximum fold -/

theorem foldl_max_ge {α : Type} (key : α → Rat) (xs : List α) :
    ∀ x : α, ∀ z ∈ x :: xs,
      key z ≤ key (xs.foldl (fun b y => if key b < key y then y else b) x) := by
  induction xs with
  | nil =>
    intro x z hz
    simp at hz
    subst hz
    simp
  | cons y ys ih =>
    intro x z hz
    show key z ≤ key (ys.foldl _ (if key x < key y then y else x))
    have hx : key x ≤ key (if key x < key y then y else x) := by
      split_ifs with hxy
      · exact le_of_lt hxy
      · exact le_refl _
    have hy : key y ≤ key (if key x < key y then y else x) := by
      split_ifs with hxy
      · exact le_refl _
      · exact le_of_not_lt hxy
    have hstep := ih (if key x < key y then y else x)
    rcases List.mem_cons.mp hz with rfl | hz2
    · exact le_trans hx (hstep _ (List.mem_cons_self _ _))
    · rcases List.mem_cons.mp hz2 with rfl | hz3
      · exact le_trans hy (hstep _ (List.mem_cons_self _ _))
      · exact hstep z (List.mem_cons_of_mem _ hz3)

theorem foldl_max_mem {α : Type} (key : α → Rat) (xs : List α) :
    ∀ x : α, xs.foldl (fun b y => if key b < key y then y else b) x ∈
      x :: xs := by
  induction xs with
  | nil => intro x; simp
  | cons y ys ih =>
    intro x
    show (ys.foldl _ (if key x < key y then y else x)) ∈ x :: y :: ys
    have := ih (if key x < key y then y else x)
    rcases List.mem_cons.mp this with he | hm
    · rw [he]
      split_ifs
      · simp
      · simp
    · simp [List.mem_cons_of_mem, hm]

/-- In a fold over pairs with strictly increasing first components, the
first maximum wins: any element with the winning key has an index not
below the result's. -/
theorem foldl_max_first_of_ties (key : Nat × List Char → Rat)
    (xs : List (Nat × List Char)) :
    ∀ x, ((x :: xs).Pairwise fun p q => p.1 < q.1) →
      ∀ p ∈ x :: xs,
        key p = key (xs.foldl (fun b y => if key b < key y then y else b) x) →
        (xs.foldl (fun b y => if key b < key y then y else b) x).1 ≤ p.1 := by
  induction xs with
  | nil =>
    intro x hp p hmem hkey
    simp at hmem
    subst hmem
    simp
  | cons y ys ih =>
    intro x hp p hmem hkey
    obtain ⟨hx, hyp⟩ := List.pairwise_cons.mp hp
    obtain ⟨hy, hys⟩ := List.pairwise_cons.mp hyp
    simp only [List.foldl_cons] at hkey ⊢
    by_cases hxy : key x < key y
    · rw [if_pos hxy] at hkey ⊢
      rcases List.mem_cons.mp hmem with he | hmem2
      · exfalso
        have hyr := foldl_max_ge key ys y y (List.mem_cons_self _ _)
        rw [he] at hkey
        rw [hkey] at hxy
        exact absurd (lt_of_lt_of_le hxy hyr) (lt_irrefl _)
      · exact ih y hyp p hmem2 hkey
    · rw [if_neg hxy] at hkey ⊢
      have hp' : ((x :: ys).Pairwise fun p q => p.1 < q.1) := by
        refine List.pairwise_cons.mpr ⟨?_, hys⟩
        intro q hq
        exact hx q (List.mem_cons_of_mem _ hq)
      rcases List.mem_cons.mp hmem with he | hmem2
      · refine ih x hp' p ?_ hkey
        rw [he]
        exact List.mem_cons_self _ _
      · rcases List.mem_cons.mp hmem2 with he | hmem3
        · have hxr := foldl_max_ge key ys x x (List.mem_cons_self _ _)
          have hyx : key p ≤ key x := by
            rw [he]
            exact le_of_not_lt hxy
          have hx_eq : key x = key (ys.foldl
              (fun b y => if key b < key y then y else b) x) := by
            refine le_antisymm hxr ?_
            rw [← hkey]
            exact hyx
          have h3 := ih x hp' x (List.mem_cons_self _ _) hx_eq
          have h4 : x.1 < p.1 := by
            rw [he]
            exact hx y (List.mem_cons_self _ _)
          omega
        · exact ih x hp' p (List.mem_cons_of_mem _ hmem3) hkey

/-! ## Enumeration facts -/

theorem mem_enumFrom_spec {α : Type} :
    ∀ (l : List α) (n : Nat) (p : Nat × α), p ∈ l.enumFrom n →
      n ≤ p.1 ∧ l.get? (p.1 - n) = some p.2 := by
  intro l
  induction l with
  | nil => intro n p h; simp [List.enumFrom] at h
  | cons a t ih =>
    intro n p h
    rcases List.mem_cons.mp h with rfl | h2
    · simp
    · obtain ⟨h1, h2'⟩ := ih (n + 1) p h2
      refine ⟨by omega, ?_⟩
      have he : p.1 - n = (p.1 - (n + 1)) + 1 := by omega
      rw [he]
      simpa using h2'

theorem enumFrom_pairwise {α : Type} :
    ∀ (l : List α) (n : Nat),
      (l.enumFrom n).Pairwise fun p q => p.1 < q.1 := by
  intro l
  induction l with
  | nil => intro n; simp [List.enumFrom]
  | cons a t ih =>
    intro n
    refine List.pairwise_cons.mpr ⟨?_, ih (n + 1)⟩
    intro q hq
    have := (mem_enumFrom_spec t (n + 1) q hq).1
    show n < q.1
    omega

theorem enumFrom_get_mem {α : Type} :
    ∀ (l : List α) (n i : Nat) (h : i < l.length),
      (n + i, l.get ⟨i, h⟩) ∈ l.enumFrom n := by
  intro l
  induction l with
  | nil => intro n i h; simp at h
  | cons a t ih =>
    intro n i h
    cases i with
    | zero => simp [List.enumFrom]
    | succ i' =>
      have hmem := ih (n + 1) i' (by simpa using h)
      have he : n + (i' + 1) = (n + 1) + i' := by omega
      rw [he]
      exact List.mem_cons_of_mem _ hmem

/-! ## Claim C6 -/

/-- C6: for every input string, `get_restaurant_code` returns an
identifier in `[1, 24]` (24 = length of the catalog); the identifier is
the 1-based index of a catalog entry whose similarity ratio against the
upper-cased input is maximal; and among entries sharing the maximal
ratio the lowest index wins. -/
theorem c6_restaurant_code_argmax (search : List Char) :
    1 ≤ get_restaurant_code search ∧
      get_restaurant_code search ≤ restaurants.length ∧
      restaurants.length = 24 ∧
      ∃ h : get_restaurant_code search - 1 < restaurants.length,
        (∀ e ∈ restaurants, ratio (upper search) e ≤
          ratio (upper search)
            (restaurants.get ⟨get_restaurant_code search - 1, h⟩)) ∧
        (∀ i, ∀ hi : i < restaurants.length,
          ratio (upper search) (restaurants.get ⟨i, hi⟩) =
            ratio (upper search)
              (restaurants.get ⟨get_restaurant_code search - 1, h⟩) →
          get_restaurant_code search - 1 ≤ i) := by
  obtain ⟨x, xs, hL⟩ : ∃ x xs, restaurants.enum = x :: xs := ⟨_, _, rfl⟩
  set key : Nat × List Char → Rat :=
    fun p => ratio (upper search) p.2 with hkey
  have hcode : get_restaurant_code search =
      (xs.foldl (fun b y => if key b < key y then y else b) x).1 + 1 := by
    unfold get_restaurant_code
    rw [hL]
  set r := xs.foldl (fun b y => if key b < key y then y else b) x with hr
  have hmem : r ∈ restaurants.enum := by
    rw [hL]
    exact foldl_max_mem key xs x
  have hspec := mem_enumFrom_spec restaurants 0 r hmem
  have hget : restaurants.get? r.1 = some r.2 := by
    have := hspec.2
    simpa using this
  obtain ⟨hlt, hgeteq⟩ := List.get?_eq_some.mp hget
  have hcode1 : get_restaurant_code search - 1 = r.1 := by omega
  have hsel : ∀ hh : get_restaurant_code search - 1 < restaurants.length,
      restaurants.get ⟨get_restaurant_code search - 1, hh⟩ = r.2 := by
    intro hh
    have heq : (⟨get_restaurant_code search - 1, hh⟩ :
        Fin restaurants.length) = ⟨r.1, hlt⟩ := Fin.ext hcode1
    rw [heq, hgeteq]
  have hlen : restaurants.length = 24 := by decide
  refine ⟨by omega, by omega, hlen, by rw [hcode1]; exact hlt, ?_, ?_⟩
  · intro e he
    rw [hsel]
    obtain ⟨⟨iv, hiv⟩, hie⟩ := List.mem_iff_get.mp he
    have hmem2 : (iv, e) ∈ restaurants.enum := by
      have h0 := enumFrom_get_mem restaurants 0 iv hiv
      rw [hie] at h0
      show (iv, e) ∈ List.enumFrom 0 restaurants
      simpa using h0
    rw [hL] at hmem2
    exact foldl_max_ge key xs x (iv, e) hmem2
  · intro i hi htie
    rw [hsel] at htie
    have hmem2 : (i, restaurants.get ⟨i, hi⟩) ∈ restaurants.enum := by
      have := enumFrom_get_mem restaurants 0 i hi
      simpa using this
    rw [hL] at hmem2
    have hpair : ((x :: xs).Pairwise fun p q => p.1 < q.1) := by
      rw [← hL]
      exact enumFrom_pairwise restaurants 0
    have hfirst := foldl_max_first_of_ties key xs x hpair
      (i, restaurants.get ⟨i, hi⟩) hmem2 htie
    rw [← hr] at hfirst
    omega

theorem c6_witness :
    get_restaurant_code "each".data = 13 ∧
      1 ≤ get_restaurant_code "each".data ∧
      get_restaurant_code "each".data ≤ restaurants.length :=
  ⟨by decide, (c6_restaurant_code_argmax "each".data).1,
    (c6_restaurant_code_argmax "each".data).2.1⟩

/-! ## `get_date` (src/bandeco.py:165-212)

`get_date` compares the raw input against the three keywords with `==`
(exact, lowercase-only), then tries the strptime format candidates
`%a`, `%A` (with `%W %Y` defaults from today), `%d/%m` (with `%Y`
default), `%d/%m/%y`, `%d/%m/%Y`; the C locale is assumed for the
weekday names.  `none` models the final `raise ValueError`. -/

/-- Python `date + timedelta(days=1)`. -/
def succDate (d : Date) : Date :=
  if d.day < daysInMonth d.year d.month then ⟨d.year, d.month, d.day + 1⟩
  else if d.month < 12 then ⟨d.year, d.month + 1, 1⟩
  else ⟨d.year + 1, 1, 1⟩

/-- Python `date - timedelta(days=1)`. -/
def predDate (d : Date) : Date :=
  if 1 < d.day then ⟨d.year, d.month, d.day - 1⟩
  else if 1 < d.month then
    ⟨d.year, d.month - 1, daysInMonth d.year (d.month - 1)⟩
  else ⟨d.year - 1, 12, 31⟩

/-- Python `str.lower` (ASCII, which covers the keywords and names). -/
def lower (s : List Char) : List Char := s.map Char.toLower

/-- Abbreviated weekday names of the C locale, Monday first (`%a`). -/
def abbrevDayNames : List (List Char) :=
  ["mon", "tue", "wed", "thu", "fri", "sat", "sun"].map String.data

/-- Full weekday names of the C locale, Monday first (`%A`). -/
def fullDayNames : List (List Char) :=
  ["monday", "tuesday", "wednesday", "thursday", "friday", "saturday",
   "sunday"].map String.data

/-- Day-of-year to date within year `y` (12 months of fuel). -/
def dateFromDoyAux : Nat → Nat → Nat → Nat → Date
  | 0, y, m, doy => ⟨y, m, doy⟩
  | fuel + 1, y, m, doy =>
    if doy ≤ daysInMonth y m ∨ m = 12 then ⟨y, m, doy⟩
    else dateFromDoyAux fuel y (m + 1) (doy - daysInMonth y m)

/-- `date.fromordinal` relative to January 1 of year `y` (for the day
numbers `_strptime` produces, which spill at most one year ahead). -/
def dateFromDoy (y doy : Nat) : Date :=
  if 365 + leapN y < doy then dateFromDoyAux 12 (y + 1) 1 (doy - (365 + leapN y))
  else dateFromDoyAux 12 y 1 doy

/-- CPython `_strptime._calc_julian_from_U_or_W` for `%W`
(Monday-started weeks). -/
def calcJulianW (year week dow : Nat) : Int :=
  let fw : Int := mondayIdx ⟨year, 1, 1⟩
  let w0len : Int := (7 - fw) % 7
  if week = 0 then 1 + (dow : Int) - fw
  else 1 + (w0len + 7 * ((week : Int) - 1)) + (dow : Int)

/-- CPython `_strptime` date from (year, `%W` week, weekday 0=Monday):
compute the day number; if non-positive, borrow the length of the
previous year. -/
def resolveWeekday (today : Date) (dow : Nat) : Date :=
  let year := today.year
  let j := calcJulianW year (weekW today) dow
  if j ≤ 0 then
    dateFromDoy (year - 1) (j + (365 + (leapN (year - 1) : Int))).toNat
  else dateFromDoy year j.toNat

/-- Formats `%a` / `%A` with `%W %Y` defaults: the input must be
exactly a weekday name (case-insensitively; the `|` separator follows
it in the joined string), and the defaults, printed from today, parse
back to today's week and year. -/
def parse_weekday (names : List (List Char)) (today : Date)
    (s : List Char) : Option Date :=
  match names.findIdx? (fun n => n == lower s) with
  | none => none
  | some dow => some (resolveWeekday today dow)

/-- A leading run of at most two decimal digits (what `strptime`'s
day/month patterns consume; out-of-range values fail the format just
as the regular expression alternation would). -/
def readNum2 : List Char → Option (Nat × List Char)
  | c1 :: c2 :: rest =>
    if c1.isDigit then
      if c2.isDigit then
        some ((c1.toNat - 48) * 10 + (c2.toNat - 48), rest)
      else some (c1.toNat - 48, c2 :: rest)
    else none
  | [c1] => if c1.isDigit then some (c1.toNat - 48, []) else none
  | [] => none

/-- Exactly `k` decimal digits. -/
def readDigitsExact : Nat → Nat → List Char → Option (Nat × List Char)
  | 0, acc, s => some (acc, s)
  | _ + 1, _, [] => none
  | k + 1, acc, c :: cs =>
    if c.isDigit then readDigitsExact k (10 * acc + (c.toNat - 48)) cs
    else none

/-- Format `%d/%m` with the current year as default: the `datetime`
construction validates the day against the month (and the default
year's February). -/
def parse_dm (today : Date) (s : List Char) : Option Date := do
  let (dd, r1) ← readNum2 s
  match r1 with
  | '/' :: r2 => do
    let (mm, r3) ← readNum2 r2
    let dt : Date := ⟨today.year, mm, dd⟩
    if r3 = [] ∧ dt.valid then some dt else none
  | _ => none

/-- Format `%d/%m/%y` (two-digit year; 00-68 means 20xx, 69-99 means
19xx, the CPython century rule). -/
def parse_dmy2 (s : List Char) : Option Date := do
  let (dd, r1) ← readNum2 s
  match r1 with
  | '/' :: r2 => do
    let (mm, r3) ← readNum2 r2
    match r3 with
    | '/' :: r4 => do
      let (yy, r5) ← readDigitsExact 2 0 r4
      let dt : Date := ⟨if yy ≤ 68 then 2000 + yy else 1900 + yy, mm, dd⟩
      if r5 = [] ∧ dt.valid then some dt else none
    | _ => none
  | _ => none

/-- Format `%d/%m/%Y` (exactly four-digit year). -/
def parse_dmY (s : List Char) : Option Date := do
  let (dd, r1) ← readNum2 s
  match r1 with
  | '/' :: r2 => do
    let (mm, r3) ← readNum2 r2
    match r3 with
    | '/' :: r4 => do
      let (yr, r5) ← readDigitsExact 4 0 r4
      let dt : Date := ⟨yr, mm, dd⟩
      if r5 = [] ∧ dt.valid then some dt else none
    | _ => none
  | _ => none

/-- Embedding of `get_date`: exact comparison against the three
keywords, then the ordered format candidates, first success wins;
`none` models `raise ValueError("Unable to parse input date")`. -/
def get_date (today : Date) (day : List Char) : Option Date :=
  if day = "today".data then some today
  else if day = "tomorrow".data then some (succDate today)
  else if day = "yesterday".data then some (predDate today)
  else match parse_weekday abbrevDayNames today day with
  | some d => some d
  | none => match parse_weekday fullDayNames today day with
    | some d => some d
    | none => match parse_dm today day with
      | some d => some d
      | none => match parse_dmy2 day with
        | some d => some d
        | none => parse_dmY day

example : get_date ⟨2023, 1, 20⟩ "today".data = some ⟨2023, 1, 20⟩ := rfl
example : get_date ⟨2023, 1, 20⟩ "01/02/2024".data = some ⟨2024, 2, 1⟩ := by
  decide
example : get_date ⟨2023, 1, 20⟩ "29/02".data = none := by decide
example : get_date ⟨2024, 1, 20⟩ "29/02".data = some ⟨2024, 2, 29⟩ := by
  decide
example : get_date ⟨2023, 1, 20⟩ "fri".data = some ⟨2023, 1, 20⟩ := by decide
example : get_date ⟨2023, 1, 18⟩ "Monday".data = some ⟨2023, 1, 16⟩ := by
  decide
example : get_date ⟨2023, 1, 1⟩ "mon".data = some ⟨2022, 12, 26⟩ := by decide

/-! ## Claim C3 -/

/-- C3: the three keywords resolve relative to the invocation date, but
only in exact lowercase spelling: `get_date` compares the raw input
with `==` against `"today"`, `"tomorrow"`, `"yesterday"`, so the
capitalised spellings the program's own help text advertises
("Today", "Tomorrow", "Yesterday", "The formats are case insensitive")
fall through every keyword and format candidate and raise
`ValueError` (`none`), for every invocation date. -/
theorem c3_keywords_lowercase_only (today : Date) :
    get_date today "today".data = some today ∧
      get_date today "tomorrow".data = some (succDate today) ∧
      get_date today "yesterday".data = some (predDate today) ∧
      get_date today "Today".data = none ∧
      get_date today "TOMORROW".data = none ∧
      get_date today "Yesterday".data = none :=
  ⟨rfl, rfl, rfl, rfl, rfl, rfl⟩

end Bandeco
